import Mathlib

/-!
# Chain parameters (`src/chainparams.h`)

A shallow embedding of `CChainParams`, the per-network bundle of consensus
constants, together with its inline accessors and gates.

Conventions of the embedding:

* `int` and `int64_t` values are embedded as `Int`.  Every function embedded
  here only *compares* such values (no addition, subtraction or conversion is
  performed by the code), so no wrap-around can occur and the comparison of two
  machine integers is the comparison of the integers they denote.
* `CBigNum` (an arbitrary-precision integer) is embedded as `Int`.
* `bool` is embedded as `Bool`.
* The pure virtual `NetworkID()` returns a per-subclass constant; it is embedded
  as a field of the parameter set.
-/

/-- Embedding of one `unsigned char`. -/
abbrev Byte := Fin 256

/-- Embedding of `CBigNum`, an arbitrary-precision signed integer. -/
abbrev CBigNum := Int

/-- Embedding of `struct CDNSSeedData`. -/
structure CDNSSeedData where
  name : String
  host : String
  deriving DecidableEq, Repr

/-- Number of bytes of the wire magic, `#define MESSAGE_START_SIZE 4`. -/
def MESSAGE_START_SIZE : Nat := 4

/-- Enumerators of `enum CChainParams::Network`, in declaration order. The last
enumerator is the sentinel that counts the preceding ones. -/
inductive Network where
  | MAIN
  | TESTNET
  | REGTEST
  | MAX_NETWORK_TYPES
  deriving DecidableEq, Repr

/-- Enumerators of `enum CChainParams::Base58Type`, in declaration order. The
last enumerator is the sentinel that counts the preceding ones. -/
inductive Base58Type where
  | PUBKEY_ADDRESS
  | SCRIPT_ADDRESS
  | SECRET_KEY
  | STEALTH_ADDRESS
  | EXT_PUBLIC_KEY
  | EXT_SECRET_KEY
  | EXT_KEY_HASH
  | EXT_ACC_HASH
  | EXT_PUBLIC_KEY_BTC
  | EXT_SECRET_KEY_BTC
  | MAX_BASE58_TYPES
  deriving DecidableEq, Repr

namespace Base58Type

/-- Integer value of an enumerator: an unscoped enumeration without explicit
initialisers numbers its enumerators 0, 1, 2, ... in declaration order. -/
def toNat : Base58Type → Nat
  | PUBKEY_ADDRESS => 0
  | SCRIPT_ADDRESS => 1
  | SECRET_KEY => 2
  | STEALTH_ADDRESS => 3
  | EXT_PUBLIC_KEY => 4
  | EXT_SECRET_KEY => 5
  | EXT_KEY_HASH => 6
  | EXT_ACC_HASH => 7
  | EXT_PUBLIC_KEY_BTC => 8
  | EXT_SECRET_KEY_BTC => 9
  | MAX_BASE58_TYPES => 10

/-- All enumerators of `Base58Type`, in declaration order. -/
def enumerators : List Base58Type :=
  [PUBKEY_ADDRESS, SCRIPT_ADDRESS, SECRET_KEY, STEALTH_ADDRESS, EXT_PUBLIC_KEY,
   EXT_SECRET_KEY, EXT_KEY_HASH, EXT_ACC_HASH, EXT_PUBLIC_KEY_BTC,
   EXT_SECRET_KEY_BTC, MAX_BASE58_TYPES]

end Base58Type

/-- Number of slots of the prefix table: the value of the sentinel enumerator,
as in the declaration `base58Prefixes[MAX_BASE58_TYPES]`. -/
def MAX_BASE58_TYPES : Nat := Base58Type.MAX_BASE58_TYPES.toNat

/-- Embedding of the data members of `class CChainParams`. The array member
`std::vector<unsigned char> base58Prefixes[MAX_BASE58_TYPES]` is the list of its
slots together with the length fixed by its array type; `networkID` is the
constant returned by the subclass override of `NetworkID()`. -/
structure CChainParams where
  networkID : Network
  hashGenesisBlock : Nat
  pchMessageStart : List Byte
  vAlertPubKey : List Byte
  strNetworkID : String
  nDefaultPort : Int
  nRPCPort : Int
  nBIP44ID : Int
  nFirstPosv2Block : Int
  nFirstPosv3Block : Int
  bnProofOfWorkLimit : CBigNum
  bnProofOfStakeLimit : CBigNum
  bnProofOfStakeLimitV2 : CBigNum
  nStakeMinConfirmationsLegacy : Int
  nStakeMinConfirmations : Int
  strDataDir : String
  vSeeds : List CDNSSeedData
  base58Prefixes : List (List Byte)
  base58Prefixes_size : base58Prefixes.length = MAX_BASE58_TYPES
  nLastPOWBlock : Int
  devContributionAddress : String
  supplyIncreaseAddress : String
  nForkV2Time : Int
  nForkV3Time : Int
  nForkV4Time : Int

namespace CChainParams

/-- Source: `bool IsProtocolV2(int nHeight) const { return nHeight > nFirstPosv2Block; }`. -/
def IsProtocolV2 (p : CChainParams) (nHeight : Int) : Bool :=
  decide (nHeight > p.nFirstPosv2Block)

/-- Source: `bool IsProtocolV3(int nHeight) const { return nHeight > nFirstPosv3Block; }`. -/
def IsProtocolV3 (p : CChainParams) (nHeight : Int) : Bool :=
  decide (nHeight > p.nFirstPosv3Block)

/-- Source: `ProofOfStakeLimit(int nHeight)`, the conditional
`IsProtocolV2(nHeight) ? bnProofOfStakeLimitV2 : bnProofOfStakeLimit`. -/
def ProofOfStakeLimit (p : CChainParams) (nHeight : Int) : CBigNum :=
  if p.IsProtocolV2 nHeight then p.bnProofOfStakeLimitV2 else p.bnProofOfStakeLimit

/-- Source: `int LastPOWBlock() const { return nLastPOWBlock; }`. -/
def LastPOWBlock (p : CChainParams) : Int := p.nLastPOWBlock

/-- Source: `bool IsForkV2(int64_t nTime) const { return nTime > nForkV2Time; }`. -/
def IsForkV2 (p : CChainParams) (nTime : Int) : Bool :=
  decide (nTime > p.nForkV2Time)

/-- Source: `bool IsForkV3(int64_t nTime) const { return nTime > nForkV3Time; }`. -/
def IsForkV3 (p : CChainParams) (nTime : Int) : Bool :=
  decide (nTime > p.nForkV3Time)

/-- Source: `bool IsForkV4(int64_t nTime) const { return nTime >= nForkV4Time; }`. -/
def IsForkV4 (p : CChainParams) (nTime : Int) : Bool :=
  decide (nTime ≥ p.nForkV4Time)

/-- Source: `GetForkId(int64_t nTime)`, the nested conditional
`(nTime >= nForkV4Time) ? 4 : (nTime > nForkV3Time) ? 3 : (nTime > nForkV2Time) ? 2 : 0`.
The comparisons are written out in the body, not routed through the gates. -/
def GetForkId (p : CChainParams) (nTime : Int) : Int :=
  if nTime ≥ p.nForkV4Time then 4
  else if nTime > p.nForkV3Time then 3
  else if nTime > p.nForkV2Time then 2
  else 0

/-- Source: `GetStakeMinConfirmations(int64_t nTime)`, the conditional
`IsForkV3(nTime) ? nStakeMinConfirmations : nStakeMinConfirmationsLegacy`. -/
def GetStakeMinConfirmations (p : CChainParams) (nTime : Int) : Int :=
  if p.IsForkV3 nTime then p.nStakeMinConfirmations else p.nStakeMinConfirmationsLegacy

/-- Source: `int GetAnonStakeMinConfirmations() const { return nStakeMinConfirmations; }`. -/
def GetAnonStakeMinConfirmations (p : CChainParams) : Int := p.nStakeMinConfirmations

/-- Source: `Network NetworkID() const`, overridden per network with a constant. -/
def NetworkID (p : CChainParams) : Network := p.networkID

/-- Source: `Base58Prefix(Base58Type type)`, the subscript `base58Prefixes[type]`.
The enumerator converts to its integer value and indexes the array; `none`
stands for a subscript outside the array, which the source leaves undefined. -/
def Base58Prefix (p : CChainParams) (type : Base58Type) : Option (List Byte) :=
  p.base58Prefixes[type.toNat]?

end CChainParams

/-- Source: `TestNet()`, `return Params().NetworkID() == CChainParams::TESTNET;`.
The currently selected parameter set returned by `Params()` is passed
explicitly. -/
def TestNet (Params : CChainParams) : Bool :=
  decide (Params.NetworkID = Network.TESTNET)

/-! ### Proof-of-work reward

`GetProofOfWorkReward` is declared in `chainparams.h`; its body is not part of
the sources at hand, so it is modelled from the specification. -/

/-- Error taxonomy of the reward functions (specification, section 7). -/
inductive RewardError where
  | ConsensusViolation
  deriving DecidableEq, Repr

/-- The two policies the specification allows for a proof-of-work reward query
beyond the last proof-of-work height; one is fixed per implementation. -/
inductive PowEndPolicy where
  | returnZero
  | signalViolation
  deriving DecidableEq, Repr

/-- Modelled from the spec: the body of `CChainParams::GetProofOfWorkReward`,
which the sources only declare. Per the specification the function "must return 0
(or fail with `ConsensusViolation`) once `height > last_pow_height`; otherwise
applies a height-dependent base subsidy schedule plus `fees`". The subsidy
schedule (a network constant table) and the fixed policy are parameters. -/
def GetProofOfWorkReward (p : CChainParams) (policy : PowEndPolicy)
    (subsidy : Int → Int) (nHeight : Int) (nFees : Int) : Except RewardError Int :=
  if nHeight > p.nLastPOWBlock then
    match policy with
    | PowEndPolicy.returnZero => Except.ok 0
    | PowEndPolicy.signalViolation => Except.error RewardError.ConsensusViolation
  else
    Except.ok (subsidy nHeight + nFees)

/-! ### Sample parameter sets

Concrete parameter sets on which the definitions are evaluated. The values are
illustrative: the per-network constants live in `chainparams.cpp`. -/

/-- One prefix byte per slot, ten slots. -/
def samplePrefixes : List (List Byte) :=
  [[179], [136], [51], [40], [44], [46], [137], [83], [4, 136, 178, 30], [4, 136, 173, 228]]

/-- A sample parameter set for the given network. -/
def sampleParams (net : Network) : CChainParams where
  networkID := net
  hashGenesisBlock := 0
  pchMessageStart := [0xb5, 0x22, 0x5c, 0xd3]
  vAlertPubKey := []
  strNetworkID := "sample"
  nDefaultPort := 37347
  nRPCPort := 36657
  nBIP44ID := 0x800000d5
  nFirstPosv2Block := 17001
  nFirstPosv3Block := 17010
  bnProofOfWorkLimit := 2 ^ 236 - 1
  bnProofOfStakeLimit := 2 ^ 236 - 1
  bnProofOfStakeLimitV2 := 2 ^ 208 - 1
  nStakeMinConfirmationsLegacy := 288
  nStakeMinConfirmations := 450
  strDataDir := ""
  vSeeds := []
  base58Prefixes := samplePrefixes
  base58Prefixes_size := rfl
  nLastPOWBlock := 17000
  devContributionAddress := ""
  supplyIncreaseAddress := ""
  nForkV2Time := 1534888800
  nForkV3Time := 1558123200
  nForkV4Time := 1569614400

/-- A flat sample subsidy schedule. -/
def sampleSubsidy : Int → Int := fun _ => 50

/-!
# Transaction table model (`src/qt/transactiontablemodel.cpp`)

Conventions of the embedding:

* `uint256` transaction hashes are embedded as `Nat`; the code only compares
  them with `<`.
* `std::string` is embedded as `StdString`, the list of its `char`s, one byte
  each: `length()` counts bytes and `substr` cuts at byte positions. `QString`
  is embedded as `String`. The conversion `QString::fromStdString` is a
  parameter of the functions that use it.
* `QList<TransactionRecord>` is embedded as `List TransactionRecord`, iterators
  as indices from `begin()`.
* `std::map<uint256, CWalletTx>` is embedded as the list of its entries in
  iteration order; `find` returns the first entry with the key.
* List sizes and positions are embedded as `Nat`, the `int` row numbers passed to
  the parent model as `Int`; a `QList` holds fewer than `2 ^ 31` items, so the
  row arithmetic `lowerIndex + toInsert.size() - 1` and `upperIndex - 1` does not
  wrap.
* The row-change notifications sent to the parent model are collected in a
  list; log output is left out.
-/

/-- Embedding of `std::string`: the sequence of its `char`s, one byte each. -/
abbrev StdString := List Byte

/-- Embedding of `class TransactionRecord` (declared in `transactionrecord.h`):
the transaction hash and the members shown by the table. A transaction
decomposes into several records, which share its hash and differ in `idx`. -/
structure TransactionRecord where
  hash : Nat
  time : Int
  address : StdString
  narration : StdString
  debit : Int
  credit : Int
  idx : Int
  deriving DecidableEq, Repr

/-- Embedding of the part of `CWallet` read by the table: `mapWallet`, the entries
of the map from transaction hash to wallet transaction, in iteration order. The
wallet transaction type is left abstract. -/
structure CWallet (Tx : Type) where
  mapWallet : List (Nat × Tx)

/-- Source: `struct TxLessThan`, the overload comparing two records,
`a.hash < b.hash`. -/
def TxLessThan.recRec (a b : TransactionRecord) : Bool := decide (a.hash < b.hash)

/-- Source: `struct TxLessThan`, the overload comparing a record with a hash,
`a.hash < b`. -/
def TxLessThan.recHash (a : TransactionRecord) (b : Nat) : Bool := decide (a.hash < b)

/-- Source: `struct TxLessThan`, the overload comparing a hash with a record,
`a < b.hash`. -/
def TxLessThan.hashRec (a : Nat) (b : TransactionRecord) : Bool := decide (a < b.hash)

/-- Enumerator `CT_NEW` of `enum ChangeType` (`ui_interface.h`), the first in
declaration order. -/
def CT_NEW : Int := 0

/-- Enumerator `CT_UPDATED` of `enum ChangeType` (`ui_interface.h`), the second in
declaration order. -/
def CT_UPDATED : Int := 1

/-- Enumerator `CT_DELETED` of `enum ChangeType` (`ui_interface.h`), the third in
declaration order. -/
def CT_DELETED : Int := 2

/-- Row-change notifications sent to the parent `QAbstractTableModel`; row
numbers are `int`. -/
inductive ModelSignal where
  | beginInsertRows (first last : Int)
  | endInsertRows
  | beginRemoveRows (first last : Int)
  | endRemoveRows
  deriving DecidableEq, Repr

/-- Loop of Qt's `qLowerBound(begin, end, value, lessThan)`:
`while (n > 0) { half = n >> 1; middle = begin + half;
if (lessThan(*middle, value)) { begin = middle + 1; n -= half + 1; } else n = half; }`
followed by `return begin`. The count `n` strictly decreases in every iteration,
so the recursion is on a bound `k` with `n ≤ k`; positions are indices into
`xs`, and `none` stands for a position outside the list, which the loop does not
reach while `begin + n` stays within the size. -/
def qLowerBoundLoop (xs : List TransactionRecord) (value : Nat) :
    Nat → Nat → Nat → Nat
  | 0, begin, _ => begin
  | k + 1, begin, n =>
    if n > 0 then
      let half := n / 2
      let middle := begin + half
      match xs[middle]? with
      | some rec =>
        if TxLessThan.recHash rec value then
          qLowerBoundLoop xs value k (middle + 1) (n - (half + 1))
        else
          qLowerBoundLoop xs value k begin half
      | none => begin
    else begin

/-- Loop of Qt's `qUpperBound(begin, end, value, lessThan)`:
`while (n > 0) { half = n >> 1; middle = begin + half;
if (lessThan(value, *middle)) n = half; else { begin = middle + 1; n -= half + 1; } }`
followed by `return begin`; recursion as for `qLowerBoundLoop`. -/
def qUpperBoundLoop (xs : List TransactionRecord) (value : Nat) :
    Nat → Nat → Nat → Nat
  | 0, begin, _ => begin
  | k + 1, begin, n =>
    if n > 0 then
      let half := n / 2
      let middle := begin + half
      match xs[middle]? with
      | some rec =>
        if TxLessThan.hashRec value rec then
          qUpperBoundLoop xs value k begin half
        else
          qUpperBoundLoop xs value k (middle + 1) (n - (half + 1))
      | none => begin
    else begin

/-- Source: `qLowerBound(cachedWallet.begin(), cachedWallet.end(), hash, TxLessThan())`,
as the index of the returned iterator; the search starts with `n = end - begin`. -/
def qLowerBound (xs : List TransactionRecord) (value : Nat) : Nat :=
  qLowerBoundLoop xs value xs.length 0 xs.length

/-- Source: `qUpperBound(cachedWallet.begin(), cachedWallet.end(), hash, TxLessThan())`,
as the index of the returned iterator. -/
def qUpperBound (xs : List TransactionRecord) (value : Nat) : Nat :=
  qUpperBoundLoop xs value xs.length 0 xs.length

/-- Qt's `QList::insert(int i, const T &value)`: the value is inserted at index
`i`; it is prepended when `i <= 0` and appended when `i >= size()`. -/
def QList.insert (xs : List TransactionRecord) (i : Int) (value : TransactionRecord) :
    List TransactionRecord :=
  xs.take i.toNat ++ value :: xs.drop i.toNat

/-- Qt's `QList::erase(iterator begin, iterator end)`: the items from `begin` up to
but not including `end` are removed. -/
def QList.erase (xs : List TransactionRecord) (lower upper : Nat) : List TransactionRecord :=
  xs.take lower ++ xs.drop upper

/-- Source: `std::map::find(hash)` on `wallet->mapWallet`: the transaction stored
under the key, if any. -/
def CWallet.find {Tx : Type} (wallet : CWallet Tx) (hash : Nat) : Option Tx :=
  (wallet.mapWallet.find? (fun e => decide (e.1 = hash))).map Prod.snd

/-- Source: `TransactionTablePriv::refreshWallet`. The cache is cleared, then for
every entry of `wallet->mapWallet` in iteration order, if
`TransactionRecord::showTransaction(it->second)` holds, the records of
`TransactionRecord::decomposeTransaction(wallet, it->second)` are appended. The two
static functions of `TransactionRecord` are parameters. Returns the new
`cachedWallet`. -/
def refreshWallet {Tx : Type} (showTransaction : Tx → Bool)
    (decomposeTransaction : CWallet Tx → Tx → List TransactionRecord)
    (wallet : CWallet Tx) : List TransactionRecord :=
  wallet.mapWallet.foldl
    (fun cachedWallet it =>
      if showTransaction it.2 then cachedWallet ++ decomposeTransaction wallet it.2
      else cachedWallet)
    []

/-- Source: the status derivation of `updateWallet`,
`if (status == CT_UPDATED) { if (showTransaction && !inModel) status = CT_NEW;
if (!showTransaction && inModel) status = CT_DELETED; }`. -/
def derivedStatus (status : Int) (showTransaction inModel : Bool) : Int :=
  if status = CT_UPDATED then
    let status := if showTransaction && !inModel then CT_NEW else status
    let status := if !showTransaction && inModel then CT_DELETED else status
    status
  else status

/-- Source: the insertion loop of `updateWallet`,
`Q_FOREACH(const TransactionRecord &rec, toInsert)
{ cachedWallet.insert(insert_idx, rec); insert_idx += 1; }`. -/
def insertLoop (cachedWallet : List TransactionRecord) (insert_idx : Int) :
    List TransactionRecord → List TransactionRecord
  | [] => cachedWallet
  | rec :: toInsert => insertLoop (QList.insert cachedWallet insert_idx rec) (insert_idx + 1) toInsert

/-- Source: `TransactionTablePriv::updateWallet(hash, status, showTransaction)`.
Returns the new `cachedWallet` and the notifications sent to the parent model.
`TransactionRecord::decomposeTransaction` is a parameter. -/
def updateWallet {Tx : Type}
    (decomposeTransaction : CWallet Tx → Tx → List TransactionRecord)
    (wallet : CWallet Tx) (cachedWallet : List TransactionRecord)
    (hash : Nat) (status : Int) (showTransaction : Bool) :
    List TransactionRecord × List ModelSignal :=
  let lowerIndex := qLowerBound cachedWallet hash
  let upperIndex := qUpperBound cachedWallet hash
  let inModel := lowerIndex != upperIndex
  let status := derivedStatus status showTransaction inModel
  if status = CT_NEW then
    if inModel then (cachedWallet, [])
    else if showTransaction then
      match wallet.find hash with
      | none => (cachedWallet, [])
      | some wtx =>
        let toInsert := decomposeTransaction wallet wtx
        if !toInsert.isEmpty then
          (insertLoop cachedWallet lowerIndex toInsert,
            [ModelSignal.beginInsertRows lowerIndex (lowerIndex + toInsert.length - 1),
             ModelSignal.endInsertRows])
        else (cachedWallet, [])
    else (cachedWallet, [])
  else if status = CT_DELETED then
    if !inModel then (cachedWallet, [])
    else
      (QList.erase cachedWallet lowerIndex upperIndex,
        [ModelSignal.beginRemoveRows lowerIndex (upperIndex - 1), ModelSignal.endRemoveRows])
  else (cachedWallet, [])

/-- Source: `TransactionTableModel::lookupAddress(address, tooltip)`. The
conversion `QString::fromStdString`, the address book lookup
`walletModel->getAddressTableModel()->labelForAddress` and the option
`walletModel->getOptionsModel()->getDisplayAddresses()` are parameters; the
lookup returns the empty string when the address book has no label. The tests
`address.empty()` and `address.length() == 102` and the cut
`address.substr(0, 34)` act on the bytes of the `std::string`. -/
def lookupAddress (fromStdString : StdString → String)
    (labelForAddress : String → String) (getDisplayAddresses : Bool)
    (address : StdString) (tooltip : Bool) : String :=
  if address.isEmpty then "unknown"
  else
    let label := labelForAddress (fromStdString address)
    let hasLabel := !label.isEmpty
    let description := ""
    let description := if hasLabel then description ++ (label ++ " ") else description
    if !hasLabel || getDisplayAddresses || tooltip then
      let description := if hasLabel then description ++ "(" else description
      let description :=
        if address.length == 102 then
          description ++ (fromStdString (address.take 34) ++ "...")
        else description ++ fromStdString address
      let description := if hasLabel then description ++ ")" else description
      description
    else description

/-- A cache is hash-sorted when its records are in non-decreasing hash order:
every record's hash is at most the hash of every later record. -/
def HashSorted (xs : List TransactionRecord) : Prop :=
  xs.Pairwise (fun a b => a.hash ≤ b.hash)

instance (xs : List TransactionRecord) : Decidable (HashSorted xs) := by
  unfold HashSorted
  infer_instance

/-! ### Sample wallet and cache

Concrete data on which the definitions are evaluated. The sample wallet
transaction is the list of its records. -/

/-- A record with the given hash and sub-index, other members blank. -/
def sampleRecord (hash : Nat) (idx : Int) : TransactionRecord where
  hash := hash
  time := 0
  address := []
  narration := []
  debit := 0
  credit := 0
  idx := idx

/-- A wallet of four transactions, the second and third with two records each. -/
def sampleWallet : CWallet (List TransactionRecord) where
  mapWallet :=
    [(3, [sampleRecord 3 0]), (5, [sampleRecord 5 0, sampleRecord 5 1]),
     (7, [sampleRecord 7 0, sampleRecord 7 1]), (9, [sampleRecord 9 0])]

/-- Decomposition of a sample wallet transaction: its records. -/
def sampleDecompose : CWallet (List TransactionRecord) → List TransactionRecord →
    List TransactionRecord :=
  fun _ wtx => wtx

/-- Sample visibility: every transaction except the one with hash 7. -/
def sampleShow : List TransactionRecord → Bool :=
  fun wtx => wtx.all (fun r => decide (r.hash ≠ 7))

/-- A hash-sorted cache without the transaction of hash 7. -/
def sampleCache : List TransactionRecord :=
  [sampleRecord 3 0, sampleRecord 5 0, sampleRecord 5 1, sampleRecord 9 0]

/-- A sample address book: one labelled address. -/
def sampleLabels : String → String :=
  fun address => if address = "SdrdWNtjD7V6BSt3EyQZKCnZDkeE28cZhr" then "Bob" else ""

/-- The `std::string` holding an ASCII text: one byte per character, its code. -/
def asciiBytes (s : String) : StdString :=
  s.toList.map (fun c => Fin.ofNat c.toNat)

/-- A sample conversion to `QString`: every byte becomes the character of the
same code. It agrees with `QString::fromStdString` on ASCII text. -/
def sampleFromStdString (bs : StdString) : String :=
  String.mk (bs.map (fun b => Char.ofNat b.val))

/-- The labelled sample address, 34 bytes of Base58 text. -/
def sampleAddress : StdString := asciiBytes "SdrdWNtjD7V6BSt3EyQZKCnZDkeE28cZhr"

/-- An address of 102 bytes that is not ASCII text: 51 times the two bytes
`0xC3 0xA9`. -/
def sampleLongAddress : StdString := (List.replicate 51 [0xC3, 0xA9]).flatten

/-! ## Fork gates -/

/-- Claim C1: for every parameter set and every time, `GetForkId` is the highest
fork level whose gate holds: 4 if `IsForkV4`, otherwise 3 if `IsForkV3`,
otherwise 2 if `IsForkV2`, otherwise 0. -/
theorem getForkId_highest_gate (p : CChainParams) (t : Int) :
    p.GetForkId t =
      if p.IsForkV4 t = true then 4
      else if p.IsForkV3 t = true then 3
      else if p.IsForkV2 t = true then 2
      else 0 := by
  simp [CChainParams.GetForkId, CChainParams.IsForkV4, CChainParams.IsForkV3,
    CChainParams.IsForkV2]

/-- Claim C2: the fork gates are asymmetric. `IsForkV2` and `IsForkV3` hold exactly
strictly after their timestamps, `IsForkV4` holds exactly from its timestamp on;
so `IsForkV4` is true at `nForkV4Time` while `IsForkV3` and `IsForkV2` are false
at `nForkV3Time` and `nForkV2Time`. -/
theorem fork_gates_asymmetric (p : CChainParams) (t : Int) :
    (p.IsForkV2 t = true ↔ t > p.nForkV2Time) ∧
    (p.IsForkV3 t = true ↔ t > p.nForkV3Time) ∧
    (p.IsForkV4 t = true ↔ t ≥ p.nForkV4Time) ∧
    p.IsForkV4 p.nForkV4Time = true ∧
    p.IsForkV3 p.nForkV3Time = false ∧
    p.IsForkV2 p.nForkV2Time = false := by
  refine ⟨?_, ?_, ?_, ?_, ?_, ?_⟩
  · unfold CChainParams.IsForkV2
    exact decide_eq_true_iff
  · unfold CChainParams.IsForkV3
    exact decide_eq_true_iff
  · unfold CChainParams.IsForkV4
    exact decide_eq_true_iff
  · unfold CChainParams.IsForkV4
    exact decide_eq_true (le_refl p.nForkV4Time)
  · unfold CChainParams.IsForkV3
    exact decide_eq_false (lt_irrefl p.nForkV3Time)
  · unfold CChainParams.IsForkV2
    exact decide_eq_false (lt_irrefl p.nForkV2Time)

/-- Claim C3: `GetForkId` is monotonically non-decreasing in time, for every
parameter set (no ordering of the fork timestamps is assumed). -/
theorem getForkId_monotone (p : CChainParams) (t1 t2 : Int) (h : t1 ≤ t2) :
    p.GetForkId t1 ≤ p.GetForkId t2 := by
  unfold CChainParams.GetForkId
  split_ifs <;> omega

/-- Witness of C3 on the sample parameters: from just before the third fork to
just after the fourth. -/
theorem getForkId_monotone_witness :
    (1558123200 : Int) ≤ 1569614400 ∧
    (sampleParams Network.MAIN).GetForkId 1558123200 ≤
      (sampleParams Network.MAIN).GetForkId 1569614400 :=
  ⟨by decide, getForkId_monotone (sampleParams Network.MAIN) 1558123200 1569614400 (by decide)⟩

/-- Claim C4: when the fork timestamps are strictly increasing, `GetForkId` is 4
at every time at or beyond `nForkV4Time` and 0 at every time before
`nForkV2Time`. -/
theorem getForkId_ends (p : CChainParams)
    (h23 : p.nForkV2Time < p.nForkV3Time) (h34 : p.nForkV3Time < p.nForkV4Time) :
    (∀ t : Int, t ≥ p.nForkV4Time → p.GetForkId t = 4) ∧
    (∀ t : Int, t < p.nForkV2Time → p.GetForkId t = 0) := by
  refine ⟨fun t ht => ?_, fun t ht => ?_⟩
  · simp [CChainParams.GetForkId, ht]
  · unfold CChainParams.GetForkId
    rw [if_neg (by omega), if_neg (by omega), if_neg (by omega)]

/-- Witness of C4 on the sample parameters, whose fork timestamps are strictly
increasing. -/
theorem getForkId_ends_witness :
    (sampleParams Network.MAIN).GetForkId 1569614400 = 4 ∧
    (sampleParams Network.MAIN).GetForkId 1534888799 = 0 :=
  have h := getForkId_ends (sampleParams Network.MAIN) (by decide) (by decide)
  ⟨h.1 1569614400 (by decide), h.2 1534888799 (by decide)⟩

/-- Claim C5: `GetStakeMinConfirmations` is the legacy value at every time up to
and including `nForkV3Time` and the new value at every later time; and it is
determined by the time and the three fields it reads, whatever the height
thresholds and other members of the parameter set are. -/
theorem getStakeMinConfirmations_switch (p : CChainParams) (t : Int) :
    (t ≤ p.nForkV3Time → p.GetStakeMinConfirmations t = p.nStakeMinConfirmationsLegacy) ∧
    (t > p.nForkV3Time → p.GetStakeMinConfirmations t = p.nStakeMinConfirmations) ∧
    (∀ q : CChainParams, q.nForkV3Time = p.nForkV3Time →
      q.nStakeMinConfirmations = p.nStakeMinConfirmations →
      q.nStakeMinConfirmationsLegacy = p.nStakeMinConfirmationsLegacy →
      q.GetStakeMinConfirmations t = p.GetStakeMinConfirmations t) := by
  refine ⟨fun h => ?_, fun h => ?_, fun q h1 h2 h3 => ?_⟩
  · simp [CChainParams.GetStakeMinConfirmations, CChainParams.IsForkV3, h]
  · have h' : p.nForkV3Time < t := h
    simp [CChainParams.GetStakeMinConfirmations, CChainParams.IsForkV3, h']
  · simp [CChainParams.GetStakeMinConfirmations, CChainParams.IsForkV3, h1, h2, h3]

/-- Witness of C5 on the sample parameters: the legacy value at the fork
timestamp itself, and agreement between the main and test sample sets. -/
theorem getStakeMinConfirmations_switch_witness :
    (sampleParams Network.MAIN).GetStakeMinConfirmations 1558123200 = 288 ∧
    (sampleParams Network.TESTNET).GetStakeMinConfirmations 1558123200 =
      (sampleParams Network.MAIN).GetStakeMinConfirmations 1558123200 :=
  have h := getStakeMinConfirmations_switch (sampleParams Network.MAIN) 1558123200
  ⟨h.1 (by decide), h.2.2 (sampleParams Network.TESTNET) rfl rfl rfl⟩

/-! ## Height gates -/

/-- Claim C6: the height gates are strict. `IsProtocolV2` holds exactly above
`nFirstPosv2Block` and `IsProtocolV3` exactly above `nFirstPosv3Block`; at the
boundary `IsProtocolV2` is false at `nFirstPosv2Block` and true one block
later. -/
theorem protocol_gates_strict (p : CChainParams) (h : Int) :
    (p.IsProtocolV2 h = true ↔ h > p.nFirstPosv2Block) ∧
    (p.IsProtocolV3 h = true ↔ h > p.nFirstPosv3Block) ∧
    p.IsProtocolV2 p.nFirstPosv2Block = false ∧
    p.IsProtocolV2 (p.nFirstPosv2Block + 1) = true := by
  refine ⟨?_, ?_, ?_, ?_⟩
  · unfold CChainParams.IsProtocolV2
    exact decide_eq_true_iff
  · unfold CChainParams.IsProtocolV3
    exact decide_eq_true_iff
  · unfold CChainParams.IsProtocolV2
    exact decide_eq_false (lt_irrefl p.nFirstPosv2Block)
  · unfold CChainParams.IsProtocolV2
    exact decide_eq_true (Int.lt_succ p.nFirstPosv2Block)

/-- Claim C7: `ProofOfStakeLimit` returns `bnProofOfStakeLimitV2` when
`IsProtocolV2` holds at the height and `bnProofOfStakeLimit` otherwise. Every
height up to and including the threshold `nFirstPosv2Block` selects the old
limit, and `nFirstPosv2Block + 1` selects the new one, as does every height
above it. -/
theorem proofOfStakeLimit_select (p : CChainParams) (h : Int) :
    (p.IsProtocolV2 h = true → p.ProofOfStakeLimit h = p.bnProofOfStakeLimitV2) ∧
    (p.IsProtocolV2 h = false → p.ProofOfStakeLimit h = p.bnProofOfStakeLimit) ∧
    p.ProofOfStakeLimit p.nFirstPosv2Block = p.bnProofOfStakeLimit ∧
    p.ProofOfStakeLimit (p.nFirstPosv2Block + 1) = p.bnProofOfStakeLimitV2 ∧
    (h ≤ p.nFirstPosv2Block → p.ProofOfStakeLimit h = p.bnProofOfStakeLimit) ∧
    (h ≥ p.nFirstPosv2Block + 1 → p.ProofOfStakeLimit h = p.bnProofOfStakeLimitV2) := by
  refine ⟨fun hv => ?_, fun hv => ?_, ?_, ?_, fun hle => ?_, fun hge => ?_⟩
  · simp [CChainParams.ProofOfStakeLimit, hv]
  · simp [CChainParams.ProofOfStakeLimit, hv]
  · simp [CChainParams.ProofOfStakeLimit, CChainParams.IsProtocolV2]
  · simp [CChainParams.ProofOfStakeLimit, CChainParams.IsProtocolV2]
  · simp [CChainParams.ProofOfStakeLimit, CChainParams.IsProtocolV2, hle]
  · have hlt : p.nFirstPosv2Block < h := by omega
    simp [CChainParams.ProofOfStakeLimit, CChainParams.IsProtocolV2, hlt]

/-- Witness of C7 on the sample parameters: block 17001 is under the old limit,
block 17002 under the new one. -/
theorem proofOfStakeLimit_select_witness :
    (sampleParams Network.MAIN).ProofOfStakeLimit 17001 = 2 ^ 236 - 1 ∧
    (sampleParams Network.MAIN).ProofOfStakeLimit 17002 = 2 ^ 208 - 1 :=
  ⟨(proofOfStakeLimit_select (sampleParams Network.MAIN) 17001).2.1 (by decide),
   (proofOfStakeLimit_select (sampleParams Network.MAIN) 17002).1 (by decide)⟩

/-! ## Proof-of-work reward -/

/-- Claim C8: for every fee amount that is not negative, the proof-of-work reward
queried at `nLastPOWBlock + 1` is a consensus violation or the amount 0; and at
no height above `nLastPOWBlock` is a positive amount returned, whatever the
policy, the subsidy schedule and the fees. -/
theorem getProofOfWorkReward_after_last (p : CChainParams) (policy : PowEndPolicy)
    (subsidy : Int → Int) :
    (∀ nFees : Int, nFees ≥ 0 →
      GetProofOfWorkReward p policy subsidy (p.nLastPOWBlock + 1) nFees
          = Except.error RewardError.ConsensusViolation ∨
      GetProofOfWorkReward p policy subsidy (p.nLastPOWBlock + 1) nFees = Except.ok 0) ∧
    (∀ nHeight nFees amount : Int, nHeight > p.nLastPOWBlock →
      GetProofOfWorkReward p policy subsidy nHeight nFees = Except.ok amount →
      ¬ amount > 0) := by
  refine ⟨fun nFees _ => ?_, fun nHeight nFees amount hh hr => ?_⟩
  · cases policy <;> simp [GetProofOfWorkReward]
  · have hlt : p.nLastPOWBlock < nHeight := hh
    cases policy <;> simp [GetProofOfWorkReward, hlt] at hr
    omega

/-- Witness of C8 on the sample parameters under the return-zero policy: with
fees of 7 the reward at block 17001 is 0, hence not positive. -/
theorem getProofOfWorkReward_after_last_witness :
    (GetProofOfWorkReward (sampleParams Network.MAIN) PowEndPolicy.returnZero
        sampleSubsidy 17001 7 = Except.error RewardError.ConsensusViolation ∨
     GetProofOfWorkReward (sampleParams Network.MAIN) PowEndPolicy.returnZero
        sampleSubsidy 17001 7 = Except.ok 0) ∧
    ¬ (0 : Int) > 0 :=
  have h := getProofOfWorkReward_after_last (sampleParams Network.MAIN)
    PowEndPolicy.returnZero sampleSubsidy
  ⟨h.1 7 (by decide), h.2 17001 7 0 (by decide) rfl⟩

/-! ## Address prefix table -/

/-- Claim C9: `Base58Prefix` is total over the closed set of address kinds. The
enumeration consists of exactly the ten kinds `PUBKEY_ADDRESS` ..
`EXT_SECRET_KEY_BTC`, numbered 0 .. 9, followed by the sentinel; the sentinel
`MAX_BASE58_TYPES` is 10 and the prefix table has exactly that many slots; and
for every kind the subscript is inside the table and the lookup returns the slot
at that kind's own index, distinct kinds having distinct indices. -/
theorem base58Prefix_total (p : CChainParams) :
    (∀ t : Base58Type, t ∈ Base58Type.enumerators) ∧
    Base58Type.enumerators.map Base58Type.toNat = List.range 11 ∧
    (Base58Type.enumerators.filter
        (fun t => decide (t ≠ Base58Type.MAX_BASE58_TYPES))).length = 10 ∧
    MAX_BASE58_TYPES = 10 ∧
    p.base58Prefixes.length = 10 ∧
    (∀ type : Base58Type, type ≠ Base58Type.MAX_BASE58_TYPES →
      ∃ hlt : type.toNat < p.base58Prefixes.length,
        p.Base58Prefix type = some (p.base58Prefixes.get ⟨type.toNat, hlt⟩)) ∧
    (∀ a b : Base58Type, a.toNat = b.toNat → a = b) := by
  have hlen : p.base58Prefixes.length = 10 := p.base58Prefixes_size
  refine ⟨fun t => ?_, by decide, by decide, rfl, hlen, fun type hne => ?_, fun a b hab => ?_⟩
  · cases t <;> decide
  · have hlt : type.toNat < p.base58Prefixes.length := by
      rw [hlen]
      cases type <;> first | exact absurd rfl hne | decide
    exact ⟨hlt, by simp [CChainParams.Base58Prefix, List.getElem?_eq_getElem hlt]⟩
  · cases a <;> cases b <;> first | rfl | exact absurd hab (by decide)

/-- Witness of C9 on the sample parameters: the stealth-address kind has index 3
and its lookup returns the fourth slot of the table. -/
theorem base58Prefix_total_witness :
    (sampleParams Network.MAIN).Base58Prefix Base58Type.STEALTH_ADDRESS = some [40] :=
  ((base58Prefix_total (sampleParams Network.MAIN)).2.2.2.2.2.1
    Base58Type.STEALTH_ADDRESS (by decide)).2

/-! ## Network selection -/

/-- Claim C10: `TestNet` returns true exactly when the network identifier of the
active parameter set is `TESTNET`; in particular it returns false when the
active network is `REGTEST` and when it is `MAIN`. -/
theorem testNet_iff_testnet (Params : CChainParams) :
    (TestNet Params = true ↔ Params.NetworkID = Network.TESTNET) ∧
    (Params.NetworkID = Network.REGTEST → TestNet Params = false) ∧
    (Params.NetworkID = Network.MAIN → TestNet Params = false) := by
  refine ⟨by simp [TestNet], fun h => ?_, fun h => ?_⟩ <;> simp [TestNet, h]

/-- Witness of C10: with the regression-test sample set active, `TestNet` is
false; with the test-network sample set active, it is true. -/
theorem testNet_iff_testnet_witness :
    TestNet (sampleParams Network.REGTEST) = false ∧
    TestNet (sampleParams Network.TESTNET) = true :=
  ⟨(testNet_iff_testnet (sampleParams Network.REGTEST)).2.1 rfl,
   (testNet_iff_testnet (sampleParams Network.TESTNET)).1.2 rfl⟩

/-! ## Address lookup -/

/-- Counterexample to C11 as stated: the sample address is not empty and the
address book has the label `Bob` for it, yet with the display-addresses option
off and no tooltip requested `lookupAddress` returns the label followed by a
space, not the label followed by the address in parentheses. -/
theorem lookupAddress_label_only_counterexample :
    sampleAddress ≠ [] ∧
    sampleFromStdString sampleAddress = "SdrdWNtjD7V6BSt3EyQZKCnZDkeE28cZhr" ∧
    sampleLabels (sampleFromStdString sampleAddress) = "Bob" ∧
    lookupAddress sampleFromStdString sampleLabels false sampleAddress false = "Bob " ∧
    lookupAddress sampleFromStdString sampleLabels false sampleAddress false ≠
      "Bob (SdrdWNtjD7V6BSt3EyQZKCnZDkeE28cZhr)" := by
  decide

/-- Claim C11, amended: for every non-empty address, `lookupAddress` returns the
label, a space and the address in parentheses when the address book has a label
and the display-addresses option is on or a tooltip is requested; the label
followed by a space when it has a label and neither holds; and just the address
when it has no label. Wherever the address is shown, an address of exactly 102
bytes is shown as the conversion of its first 34 bytes followed by three dots.
The address is a byte string, shown through `QString::fromStdString`, whatever
that conversion does. -/
theorem lookupAddress_cases (fromStdString : StdString → String)
    (labelForAddress : String → String)
    (getDisplayAddresses : Bool) (address : StdString) (tooltip : Bool)
    (hne : address ≠ []) :
    (address.length ≠ 102 → labelForAddress (fromStdString address) ≠ "" →
      (getDisplayAddresses = true ∨ tooltip = true) →
      lookupAddress fromStdString labelForAddress getDisplayAddresses address tooltip
        = labelForAddress (fromStdString address) ++ " (" ++ fromStdString address ++ ")") ∧
    (address.length = 102 → labelForAddress (fromStdString address) ≠ "" →
      (getDisplayAddresses = true ∨ tooltip = true) →
      lookupAddress fromStdString labelForAddress getDisplayAddresses address tooltip
        = labelForAddress (fromStdString address) ++ " ("
          ++ fromStdString (address.take 34) ++ "...)") ∧
    (labelForAddress (fromStdString address) ≠ "" →
      getDisplayAddresses = false → tooltip = false →
      lookupAddress fromStdString labelForAddress getDisplayAddresses address tooltip
        = labelForAddress (fromStdString address) ++ " ") ∧
    (address.length ≠ 102 → labelForAddress (fromStdString address) = "" →
      lookupAddress fromStdString labelForAddress getDisplayAddresses address tooltip
        = fromStdString address) ∧
    (address.length = 102 → labelForAddress (fromStdString address) = "" →
      lookupAddress fromStdString labelForAddress getDisplayAddresses address tooltip
        = fromStdString (address.take 34) ++ "...") := by
  have hempty : address.isEmpty = false := by
    cases address with
    | nil => exact absurd rfl hne
    | cons _ _ => rfl
  have hlabel : ∀ s : String, s ≠ "" → s.isEmpty = false := fun s hs => by
    rw [Bool.eq_false_iff]
    exact fun h => hs ((String.isEmpty_iff s).1 h)
  have hparen : ∀ a : String, a ++ " " ++ "(" = a ++ " (" :=
    fun a => by rw [String.append_assoc]; rfl
  have hdots : ∀ b : String, b ++ "..." ++ ")" = b ++ "...)" :=
    fun b => by rw [String.append_assoc]; rfl
  refine ⟨fun hlen hl hd => ?_, fun hlen hl hd => ?_, fun hl hd ht => ?_,
    fun hlen hl => ?_, fun hlen hl => ?_⟩
  · have hor : (getDisplayAddresses || tooltip) = true := by
      rcases hd with h | h <;> simp [h]
    simp only [lookupAddress, hempty, hlabel _ hl, String.empty_append]
    simp [hor, hlen, ← String.append_assoc, hparen]
  · have hor : (getDisplayAddresses || tooltip) = true := by
      rcases hd with h | h <;> simp [h]
    simp only [lookupAddress, hempty, hlabel _ hl, String.empty_append]
    simp [hor, hlen, ← String.append_assoc, hparen, hdots]
  · simp only [lookupAddress, hempty, hlabel _ hl, String.empty_append]
    simp [hd, ht]
  · have he : (labelForAddress (fromStdString address)).isEmpty = true := by rw [hl]; rfl
    simp only [lookupAddress, hempty, he]
    simp [hlen]
  · have he : (labelForAddress (fromStdString address)).isEmpty = true := by rw [hl]; rfl
    simp only [lookupAddress, hempty, he]
    simp [hlen]

/-- Witness of the amended C11 on the sample address book: with the
display-addresses option on, the labelled sample address gives the label and the
address in parentheses; the unlabelled 102-byte address gives the conversion of
its first 34 bytes followed by three dots. -/
theorem lookupAddress_cases_witness :
    lookupAddress sampleFromStdString sampleLabels true sampleAddress false
      = "Bob (SdrdWNtjD7V6BSt3EyQZKCnZDkeE28cZhr)" ∧
    lookupAddress sampleFromStdString sampleLabels false sampleLongAddress false
      = sampleFromStdString ((List.replicate 17 [0xC3, 0xA9]).flatten) ++ "..." :=
  ⟨((lookupAddress_cases sampleFromStdString sampleLabels true sampleAddress false
      (by decide)).1 (by decide) (by decide) (Or.inl rfl)).trans (by decide),
   ((lookupAddress_cases sampleFromStdString sampleLabels false sampleLongAddress false
      (by decide)).2.2.2.2 (by decide) (by decide)).trans (by decide)⟩

/-! ## Transaction cache: binary search on a hash-sorted cache -/

/-- In a hash-sorted list, hashes do not decrease along the indices. -/
theorem hashSorted_getElem?_le {xs : List TransactionRecord} (hs : HashSorted xs)
    {i j : Nat} {a b : TransactionRecord} (hij : i ≤ j)
    (ha : xs[i]? = some a) (hb : xs[j]? = some b) : a.hash ≤ b.hash := by
  rcases Nat.lt_or_eq_of_le hij with hlt | heq
  · obtain ⟨hi, rfl⟩ := List.getElem?_eq_some.1 ha
    obtain ⟨hj, rfl⟩ := List.getElem?_eq_some.1 hb
    exact (List.pairwise_iff_getElem.1 hs) i j hi hj hlt
  · subst heq
    rw [ha] at hb
    cases hb
    exact le_refl _

/-- Invariant of the lower-bound loop on a hash-sorted list: if every record
before `begin` is below the value and no record from `begin + n` on is, the
returned position splits the whole list that way. -/
theorem qLowerBoundLoop_spec (xs : List TransactionRecord) (v : Nat) (hs : HashSorted xs) :
    ∀ (k begin n : Nat), n ≤ k → begin + n ≤ xs.length →
      (∀ i a, i < begin → xs[i]? = some a → a.hash < v) →
      (∀ i a, begin + n ≤ i → xs[i]? = some a → ¬ a.hash < v) →
      qLowerBoundLoop xs v k begin n ≤ xs.length ∧
      (∀ i a, i < qLowerBoundLoop xs v k begin n → xs[i]? = some a → a.hash < v) ∧
      (∀ i a, qLowerBoundLoop xs v k begin n ≤ i → xs[i]? = some a → ¬ a.hash < v) := by
  intro k
  induction k with
  | zero =>
    intro begin n hn hlen hlo hhi
    have hn0 : n = 0 := by omega
    subst hn0
    exact ⟨by simpa [qLowerBoundLoop] using hlen, by simpa [qLowerBoundLoop] using hlo,
      by simpa [qLowerBoundLoop] using hhi⟩
  | succ k ih =>
    intro begin n hn hlen hlo hhi
    by_cases hpos : n > 0
    · have hmid : begin + n / 2 < xs.length := by omega
      obtain ⟨r, hget⟩ : ∃ r, xs[begin + n / 2]? = some r :=
        ⟨_, List.getElem?_eq_getElem hmid⟩
      by_cases hless : r.hash < v
      · have hstep : qLowerBoundLoop xs v (k + 1) begin n
            = qLowerBoundLoop xs v k (begin + n / 2 + 1) (n - (n / 2 + 1)) := by
          simp [qLowerBoundLoop, hpos, hget, TxLessThan.recHash, hless]
        rw [hstep]
        apply ih
        · omega
        · omega
        · intro i a hi ha
          have hle := hashSorted_getElem?_le hs (Nat.lt_succ_iff.1 hi) ha hget
          omega
        · intro i a hi ha
          exact hhi i a (by omega) ha
      · have hstep : qLowerBoundLoop xs v (k + 1) begin n
            = qLowerBoundLoop xs v k begin (n / 2) := by
          simp [qLowerBoundLoop, hpos, hget, TxLessThan.recHash, hless]
        rw [hstep]
        apply ih
        · omega
        · omega
        · exact hlo
        · intro i a hi ha
          have hle := hashSorted_getElem?_le hs hi hget ha
          omega
    · have hn0 : n = 0 := by omega
      subst hn0
      exact ⟨by simpa [qLowerBoundLoop] using hlen, by simpa [qLowerBoundLoop] using hlo,
        by simpa [qLowerBoundLoop] using hhi⟩

/-- Invariant of the upper-bound loop on a hash-sorted list: if no record before
`begin` is above the value and every record from `begin + n` on is, the returned
position splits the whole list that way. -/
theorem qUpperBoundLoop_spec (xs : List TransactionRecord) (v : Nat) (hs : HashSorted xs) :
    ∀ (k begin n : Nat), n ≤ k → begin + n ≤ xs.length →
      (∀ i a, i < begin → xs[i]? = some a → ¬ v < a.hash) →
      (∀ i a, begin + n ≤ i → xs[i]? = some a → v < a.hash) →
      qUpperBoundLoop xs v k begin n ≤ xs.length ∧
      (∀ i a, i < qUpperBoundLoop xs v k begin n → xs[i]? = some a → ¬ v < a.hash) ∧
      (∀ i a, qUpperBoundLoop xs v k begin n ≤ i → xs[i]? = some a → v < a.hash) := by
  intro k
  induction k with
  | zero =>
    intro begin n hn hlen hlo hhi
    have hn0 : n = 0 := by omega
    subst hn0
    exact ⟨by simpa [qUpperBoundLoop] using hlen, by simpa [qUpperBoundLoop] using hlo,
      by simpa [qUpperBoundLoop] using hhi⟩
  | succ k ih =>
    intro begin n hn hlen hlo hhi
    by_cases hpos : n > 0
    · have hmid : begin + n / 2 < xs.length := by omega
      obtain ⟨r, hget⟩ : ∃ r, xs[begin + n / 2]? = some r :=
        ⟨_, List.getElem?_eq_getElem hmid⟩
      by_cases hless : v < r.hash
      · have hstep : qUpperBoundLoop xs v (k + 1) begin n
            = qUpperBoundLoop xs v k begin (n / 2) := by
          simp [qUpperBoundLoop, hpos, hget, TxLessThan.hashRec, hless]
        rw [hstep]
        apply ih
        · omega
        · omega
        · exact hlo
        · intro i a hi ha
          have hle := hashSorted_getElem?_le hs hi hget ha
          omega
      · have hstep : qUpperBoundLoop xs v (k + 1) begin n
            = qUpperBoundLoop xs v k (begin + n / 2 + 1) (n - (n / 2 + 1)) := by
          simp [qUpperBoundLoop, hpos, hget, TxLessThan.hashRec, hless]
        rw [hstep]
        apply ih
        · omega
        · omega
        · intro i a hi ha
          have hle := hashSorted_getElem?_le hs (Nat.lt_succ_iff.1 hi) ha hget
          omega
        · intro i a hi ha
          exact hhi i a (by omega) ha
    · have hn0 : n = 0 := by omega
      subst hn0
      exact ⟨by simpa [qUpperBoundLoop] using hlen, by simpa [qUpperBoundLoop] using hlo,
        by simpa [qUpperBoundLoop] using hhi⟩

/-- On a hash-sorted cache, `qLowerBound` returns a position inside the list with
exactly the records of smaller hash before it. -/
theorem qLowerBound_spec {xs : List TransactionRecord} (v : Nat) (hs : HashSorted xs) :
    qLowerBound xs v ≤ xs.length ∧
    (∀ i a, i < qLowerBound xs v → xs[i]? = some a → a.hash < v) ∧
    (∀ i a, qLowerBound xs v ≤ i → xs[i]? = some a → ¬ a.hash < v) := by
  unfold qLowerBound
  apply qLowerBoundLoop_spec xs v hs xs.length 0 xs.length (le_refl _) (by omega)
  · intro i a hi
    exact absurd hi (Nat.not_lt_zero i)
  · intro i a hi ha
    have hnone : xs[i]? = none := List.getElem?_eq_none (by omega)
    rw [hnone] at ha
    cases ha

/-- On a hash-sorted cache, `qUpperBound` returns a position inside the list with
exactly the records of larger hash from it on. -/
theorem qUpperBound_spec {xs : List TransactionRecord} (v : Nat) (hs : HashSorted xs) :
    qUpperBound xs v ≤ xs.length ∧
    (∀ i a, i < qUpperBound xs v → xs[i]? = some a → ¬ v < a.hash) ∧
    (∀ i a, qUpperBound xs v ≤ i → xs[i]? = some a → v < a.hash) := by
  unfold qUpperBound
  apply qUpperBoundLoop_spec xs v hs xs.length 0 xs.length (le_refl _) (by omega)
  · intro i a hi
    exact absurd hi (Nat.not_lt_zero i)
  · intro i a hi ha
    have hnone : xs[i]? = none := List.getElem?_eq_none (by omega)
    rw [hnone] at ha
    cases ha

/-- A position that separates the records satisfying a test from those failing
it cuts the list into the two filtered parts. -/
theorem take_drop_eq_filter {α : Type} (p : α → Bool) (xs : List α) (r : Nat)
    (h1 : ∀ i a, i < r → xs[i]? = some a → p a = true)
    (h2 : ∀ i a, r ≤ i → xs[i]? = some a → p a = false) :
    xs.take r = xs.filter p ∧ xs.drop r = xs.filter (fun a => !p a) := by
  have htake : ∀ a ∈ xs.take r, p a = true := by
    intro a ha
    obtain ⟨n, hn⟩ := List.mem_iff_getElem?.1 ha
    rw [List.getElem?_take] at hn
    by_cases hlt : n < r
    · rw [if_pos hlt] at hn
      exact h1 n a hlt hn
    · rw [if_neg hlt] at hn
      cases hn
  have hdrop : ∀ a ∈ xs.drop r, p a = false := by
    intro a ha
    obtain ⟨n, hn⟩ := List.mem_iff_getElem?.1 ha
    rw [List.getElem?_drop] at hn
    exact h2 (r + n) a (by omega) hn
  have hsplit : xs = xs.take r ++ xs.drop r := (List.take_append_drop r xs).symm
  constructor
  · conv_rhs => rw [hsplit, List.filter_append]
    have e1 : (xs.take r).filter p = xs.take r := List.filter_eq_self.2 htake
    have e2 : (xs.drop r).filter p = [] :=
      List.filter_eq_nil_iff.2 (fun a ha => by simp [hdrop a ha])
    rw [e1, e2, List.append_nil]
  · conv_rhs => rw [hsplit, List.filter_append]
    have e1 : (xs.take r).filter (fun a => !p a) = [] :=
      List.filter_eq_nil_iff.2 (fun a ha => by simp [htake a ha])
    have e2 : (xs.drop r).filter (fun a => !p a) = xs.drop r :=
      List.filter_eq_self.2 (fun a ha => by simp [hdrop a ha])
    rw [e1, e2, List.nil_append]

/-- On a hash-sorted cache the records before the lower bound are those of
smaller hash, in order, and the rest are those of hash at least the value. -/
theorem qLowerBound_take_drop {xs : List TransactionRecord} (v : Nat) (hs : HashSorted xs) :
    xs.take (qLowerBound xs v) = xs.filter (fun a => decide (a.hash < v)) ∧
    xs.drop (qLowerBound xs v) = xs.filter (fun a => !decide (a.hash < v)) := by
  obtain ⟨_, h1, h2⟩ := qLowerBound_spec v hs
  exact take_drop_eq_filter (fun a => decide (a.hash < v)) xs _
    (fun i a hi ha => decide_eq_true (h1 i a hi ha))
    (fun i a hi ha => decide_eq_false (h2 i a hi ha))

/-- On a hash-sorted cache the records from the upper bound on are those of larger
hash, in order, and the records before it are those of hash at most the value. -/
theorem qUpperBound_take_drop {xs : List TransactionRecord} (v : Nat) (hs : HashSorted xs) :
    xs.take (qUpperBound xs v) = xs.filter (fun a => !decide (v < a.hash)) ∧
    xs.drop (qUpperBound xs v) = xs.filter (fun a => decide (v < a.hash)) := by
  obtain ⟨_, h1, h2⟩ := qUpperBound_spec v hs
  have h := take_drop_eq_filter (fun a => !decide (v < a.hash)) xs _
    (fun i a hi ha => by simpa using h1 i a hi ha)
    (fun i a hi ha => by simpa using h2 i a hi ha)
  refine ⟨h.1, ?_⟩
  rw [h.2]
  congr 1
  funext a
  simp

/-- On a hash-sorted cache the positions from the lower bound up to the upper
bound are exactly the positions of the records carrying the hash. -/
theorem bounds_range_iff {xs : List TransactionRecord} (v : Nat) (hs : HashSorted xs)
    (i : Nat) :
    (qLowerBound xs v ≤ i ∧ i < qUpperBound xs v) ↔ ∃ a, xs[i]? = some a ∧ a.hash = v := by
  obtain ⟨_, l1, l2⟩ := qLowerBound_spec v hs
  obtain ⟨hu, u1, u2⟩ := qUpperBound_spec v hs
  constructor
  · rintro ⟨hli, hiu⟩
    have hi : i < xs.length := by omega
    refine ⟨xs.get ⟨i, hi⟩, List.getElem?_eq_getElem hi, ?_⟩
    have a1 := l2 i _ hli (List.getElem?_eq_getElem hi)
    have a2 := u1 i _ hiu (List.getElem?_eq_getElem hi)
    simp only [List.get_eq_getElem]
    omega
  · rintro ⟨a, ha, rfl⟩
    constructor
    · by_contra hcon
      have := l1 i a (by omega) ha
      omega
    · by_contra hcon
      have := u2 i a (by omega) ha
      omega

/-- On a hash-sorted cache the lower bound does not exceed the upper bound, and
they differ exactly when some record carries the hash. -/
theorem inModel_iff {xs : List TransactionRecord} (v : Nat) (hs : HashSorted xs) :
    qLowerBound xs v ≤ qUpperBound xs v ∧
    ((qLowerBound xs v != qUpperBound xs v) = true ↔ ∃ a ∈ xs, a.hash = v) := by
  obtain ⟨hl, l1, l2⟩ := qLowerBound_spec v hs
  obtain ⟨hu, u1, u2⟩ := qUpperBound_spec v hs
  have hle : qLowerBound xs v ≤ qUpperBound xs v := by
    by_contra hcon
    have hi : qUpperBound xs v < xs.length := by omega
    have a1 := l1 _ _ (by omega) (List.getElem?_eq_getElem hi)
    have a2 := u2 _ _ (le_refl _) (List.getElem?_eq_getElem hi)
    omega
  refine ⟨hle, ?_⟩
  constructor
  · intro hne
    have hne' : qLowerBound xs v ≠ qUpperBound xs v := by simpa using hne
    obtain ⟨a, ha, hav⟩ := (bounds_range_iff v hs (qLowerBound xs v)).1 ⟨le_refl _, by omega⟩
    exact ⟨a, List.mem_iff_getElem?.2 ⟨_, ha⟩, hav⟩
  · rintro ⟨a, ha, hav⟩
    obtain ⟨i, hi⟩ := List.mem_iff_getElem?.1 ha
    have := (bounds_range_iff v hs i).2 ⟨a, hi, hav⟩
    have hne' : qLowerBound xs v ≠ qUpperBound xs v := by omega
    simpa using hne'

/-- Erasing the range from the lower to the upper bound of a hash-sorted cache
leaves the records of every other hash, in order. -/
theorem erase_bounds_eq_filter {xs : List TransactionRecord} (v : Nat) (hs : HashSorted xs) :
    QList.erase xs (qLowerBound xs v) (qUpperBound xs v)
      = xs.filter (fun r => decide (r.hash ≠ v)) := by
  have hl := (qLowerBound_take_drop v hs).1
  have hu := qUpperBound_take_drop v hs
  unfold QList.erase
  have hsplit : xs.filter (fun r => decide (r.hash ≠ v))
      = (xs.take (qUpperBound xs v)).filter (fun r => decide (r.hash ≠ v))
        ++ (xs.drop (qUpperBound xs v)).filter (fun r => decide (r.hash ≠ v)) := by
    rw [← List.filter_append, List.take_append_drop]
  rw [hsplit]
  have e2 : (xs.drop (qUpperBound xs v)).filter (fun r => decide (r.hash ≠ v))
      = xs.drop (qUpperBound xs v) := by
    apply List.filter_eq_self.2
    intro a ha
    rw [hu.2] at ha
    have hlt : v < a.hash := by simpa using (List.mem_filter.1 ha).2
    exact decide_eq_true (by omega)
  have e1 : (xs.take (qUpperBound xs v)).filter (fun r => decide (r.hash ≠ v))
      = xs.take (qLowerBound xs v) := by
    rw [hu.1, hl, List.filter_filter]
    apply List.filter_congr
    intro a _
    by_cases h1 : a.hash < v
    · have h2 : ¬ v < a.hash := by omega
      have h3 : a.hash ≠ v := by omega
      simp [h1, h2, h3]
    · by_cases h2 : v < a.hash
      · simp [h1, h2]
      · have h3 : a.hash = v := by omega
        simp [h3]
  rw [e1, e2]

/-! ## Transaction cache: deletion -/

/-- Claim C13: deletion removes the entire transaction and nothing else. For every
hash-sorted cache and every hash present in it, `updateWallet` with `CT_DELETED`
(whatever `showTransaction` is) yields exactly the cache with all records of that
hash removed, every other record kept in its original relative order; no record
with that hash remains; the rows signalled as removed are `lowerIndex` to
`upperIndex - 1`, and these are exactly the rows of the records with that hash. -/
theorem updateWallet_deleted {Tx : Type}
    (decomposeTransaction : CWallet Tx → Tx → List TransactionRecord)
    (wallet : CWallet Tx) (cachedWallet : List TransactionRecord)
    (hash : Nat) (showTransaction : Bool)
    (hs : HashSorted cachedWallet) (hin : ∃ r ∈ cachedWallet, r.hash = hash) :
    (updateWallet decomposeTransaction wallet cachedWallet hash CT_DELETED showTransaction).1
      = cachedWallet.filter (fun r => decide (r.hash ≠ hash)) ∧
    (∀ r ∈ (updateWallet decomposeTransaction wallet cachedWallet hash CT_DELETED
        showTransaction).1, r.hash ≠ hash) ∧
    (updateWallet decomposeTransaction wallet cachedWallet hash CT_DELETED showTransaction).2
      = [ModelSignal.beginRemoveRows (qLowerBound cachedWallet hash : Nat)
          ((qUpperBound cachedWallet hash : Nat) - 1), ModelSignal.endRemoveRows] ∧
    (∀ i : Nat, (qLowerBound cachedWallet hash ≤ i ∧ i < qUpperBound cachedWallet hash) ↔
      ∃ a, cachedWallet[i]? = some a ∧ a.hash = hash) := by
  have hmodel : (qLowerBound cachedWallet hash != qUpperBound cachedWallet hash) = true :=
    (inModel_iff hash hs).2.2 hin
  have hstatus : ∀ b : Bool, derivedStatus CT_DELETED showTransaction b = CT_DELETED := by
    intro b
    simp [derivedStatus, CT_DELETED, CT_UPDATED]
  have hrun : updateWallet decomposeTransaction wallet cachedWallet hash CT_DELETED
      showTransaction
      = (QList.erase cachedWallet (qLowerBound cachedWallet hash) (qUpperBound cachedWallet hash),
          [ModelSignal.beginRemoveRows (qLowerBound cachedWallet hash : Nat)
            ((qUpperBound cachedWallet hash : Nat) - 1), ModelSignal.endRemoveRows]) := by
    unfold updateWallet
    simp only [hstatus, hmodel]
    simp [CT_DELETED, CT_NEW]
  rw [hrun, erase_bounds_eq_filter hash hs]
  refine ⟨rfl, ?_, rfl, bounds_range_iff hash hs⟩
  intro r hr
  simpa using (List.mem_filter.1 hr).2

/-- Witness of C13 on the sample cache: deleting the transaction of hash 5
removes its two records, rows 1 to 2, and keeps the other two in order. -/
theorem updateWallet_deleted_witness :
    (updateWallet sampleDecompose sampleWallet sampleCache 5 CT_DELETED false).1
      = [sampleRecord 3 0, sampleRecord 9 0] ∧
    (updateWallet sampleDecompose sampleWallet sampleCache 5 CT_DELETED false).2
      = [ModelSignal.beginRemoveRows 1 2, ModelSignal.endRemoveRows] :=
  have h := updateWallet_deleted sampleDecompose sampleWallet sampleCache 5 false
    (by decide) ⟨sampleRecord 5 0, by decide, rfl⟩
  ⟨h.1.trans (by decide), h.2.2.1.trans (by decide)⟩

/-! ## Transaction cache: insertion -/

/-- The insertion loop started at an index inside the cache places the records
contiguously at that index, in their order. -/
theorem insertLoop_eq (toInsert : List TransactionRecord) :
    ∀ (cachedWallet : List TransactionRecord) (l : Nat), l ≤ cachedWallet.length →
      insertLoop cachedWallet (l : Int) toInsert
        = cachedWallet.take l ++ toInsert ++ cachedWallet.drop l := by
  induction toInsert with
  | nil =>
    intro cachedWallet l _
    simp [insertLoop]
  | cons t ts ih =>
    intro cachedWallet l hl
    have hins : QList.insert cachedWallet (l : Int) t
        = cachedWallet.take l ++ t :: cachedWallet.drop l := by
      simp [QList.insert]
    have hlen : (cachedWallet.take l).length = l := by
      simp [List.length_take, hl]
    have hcast : ((l : Int) + 1) = ((l + 1 : Nat) : Int) := by push_cast; rfl
    have hlen2 : l + 1 ≤ (cachedWallet.take l ++ t :: cachedWallet.drop l).length := by
      simp only [List.length_append, List.length_cons, List.length_take, List.length_drop]
      omega
    have htake : (cachedWallet.take l ++ t :: cachedWallet.drop l).take (l + 1)
        = cachedWallet.take l ++ [t] := by
      rw [List.take_append_eq_append_take, hlen]
      simp [List.take_of_length_le, hlen]
    have hdrop : (cachedWallet.take l ++ t :: cachedWallet.drop l).drop (l + 1)
        = cachedWallet.drop l := by
      rw [List.drop_append_eq_append_drop, hlen]
      simp [List.drop_of_length_le, hlen]
    simp only [insertLoop]
    rw [hins, hcast, ih _ (l + 1) hlen2, htake, hdrop]
    simp

/-- Claim C14: a new transaction is inserted at the right position. For every
hash-sorted cache not containing the hash, if the wallet contains the
transaction and its decomposition is not empty, `updateWallet` with `CT_NEW` and
`showTransaction` true yields the cache with the decomposed records inserted
contiguously, in decomposition order, at the lower-bound index of the hash: the
records before them are exactly the cached records of smaller hash and the
records after them exactly those of larger hash, all in their previous order.
The rows signalled as inserted are those of the new records. -/
theorem updateWallet_new {Tx : Type}
    (decomposeTransaction : CWallet Tx → Tx → List TransactionRecord)
    (wallet : CWallet Tx) (cachedWallet : List TransactionRecord)
    (hash : Nat) (wtx : Tx)
    (hs : HashSorted cachedWallet) (hnot : ∀ r ∈ cachedWallet, r.hash ≠ hash)
    (hfind : wallet.find hash = some wtx) (hne : decomposeTransaction wallet wtx ≠ []) :
    (updateWallet decomposeTransaction wallet cachedWallet hash CT_NEW true).1
      = cachedWallet.take (qLowerBound cachedWallet hash)
        ++ decomposeTransaction wallet wtx
        ++ cachedWallet.drop (qLowerBound cachedWallet hash) ∧
    cachedWallet.take (qLowerBound cachedWallet hash)
      = cachedWallet.filter (fun r => decide (r.hash < hash)) ∧
    cachedWallet.drop (qLowerBound cachedWallet hash)
      = cachedWallet.filter (fun r => decide (hash < r.hash)) ∧
    cachedWallet.take (qLowerBound cachedWallet hash)
      ++ cachedWallet.drop (qLowerBound cachedWallet hash) = cachedWallet ∧
    (updateWallet decomposeTransaction wallet cachedWallet hash CT_NEW true).2
      = [ModelSignal.beginInsertRows (qLowerBound cachedWallet hash : Nat)
          ((qLowerBound cachedWallet hash : Nat)
            + ((decomposeTransaction wallet wtx).length : Nat) - 1),
         ModelSignal.endInsertRows] := by
  have hmodel : (qLowerBound cachedWallet hash != qUpperBound cachedWallet hash) = false := by
    rw [Bool.eq_false_iff]
    intro h
    obtain ⟨r, hr, hrv⟩ := (inModel_iff hash hs).2.1 h
    exact hnot r hr hrv
  have hstatus : ∀ b c : Bool, derivedStatus CT_NEW b c = CT_NEW := by
    intro b c
    simp [derivedStatus, CT_NEW, CT_UPDATED]
  have hempty : (decomposeTransaction wallet wtx).isEmpty = false := by
    cases hd : decomposeTransaction wallet wtx with
    | nil => exact absurd hd hne
    | cons _ _ => rfl
  have hrun : updateWallet decomposeTransaction wallet cachedWallet hash CT_NEW true
      = (insertLoop cachedWallet (qLowerBound cachedWallet hash : Nat)
            (decomposeTransaction wallet wtx),
          [ModelSignal.beginInsertRows (qLowerBound cachedWallet hash : Nat)
            ((qLowerBound cachedWallet hash : Nat)
              + ((decomposeTransaction wallet wtx).length : Nat) - 1),
           ModelSignal.endInsertRows]) := by
    unfold updateWallet
    simp only [hstatus, hmodel, hfind]
    simp [hempty]
  have htd := qLowerBound_take_drop hash hs
  rw [hrun, insertLoop_eq _ _ _ (qLowerBound_spec hash hs).1]
  refine ⟨rfl, htd.1, ?_, List.take_append_drop _ _, rfl⟩
  rw [htd.2]
  apply List.filter_congr
  intro a ha
  have hav : a.hash ≠ hash := hnot a ha
  by_cases h1 : a.hash < hash
  · have h2 : ¬ hash < a.hash := by omega
    simp [h1, h2]
  · have h2 : hash < a.hash := by omega
    simp [h1, h2]

/-- Witness of C14 on the sample wallet and cache: the two records of the
transaction of hash 7 are inserted at rows 3 and 4, between hash 5 and hash 9. -/
theorem updateWallet_new_witness :
    (updateWallet sampleDecompose sampleWallet sampleCache 7 CT_NEW true).1
      = [sampleRecord 3 0, sampleRecord 5 0, sampleRecord 5 1,
         sampleRecord 7 0, sampleRecord 7 1, sampleRecord 9 0] ∧
    (updateWallet sampleDecompose sampleWallet sampleCache 7 CT_NEW true).2
      = [ModelSignal.beginInsertRows 3 4, ModelSignal.endInsertRows] :=
  have h := updateWallet_new sampleDecompose sampleWallet sampleCache 7
    [sampleRecord 7 0, sampleRecord 7 1] (by decide) (by decide) (by decide) (by decide)
  ⟨h.1.trans (by decide), h.2.2.2.2.trans (by decide)⟩

/-! ## Transaction cache: sortedness -/

/-- A transaction found in the wallet under a hash is an entry of the map with
that key. -/
theorem find_mem {Tx : Type} {wallet : CWallet Tx} {hash : Nat} {wtx : Tx}
    (h : wallet.find hash = some wtx) : (hash, wtx) ∈ wallet.mapWallet := by
  unfold CWallet.find at h
  obtain ⟨e, he, rfl⟩ := Option.map_eq_some'.1 h
  have hkey : e.1 = hash := by simpa using List.find?_some he
  have hmem := List.mem_of_find?_eq_some he
  cases e
  simp only at hkey
  subst hkey
  exact hmem

/-- The three possible outcomes of `updateWallet` for the cache: unchanged, the
range between the bounds erased, or the decomposition of the wallet transaction
inserted at the lower bound. -/
theorem updateWallet_fst_cases {Tx : Type}
    (decomposeTransaction : CWallet Tx → Tx → List TransactionRecord)
    (wallet : CWallet Tx) (cachedWallet : List TransactionRecord)
    (hash : Nat) (status : Int) (showTransaction : Bool) :
    (updateWallet decomposeTransaction wallet cachedWallet hash status showTransaction).1
        = cachedWallet ∨
    (updateWallet decomposeTransaction wallet cachedWallet hash status showTransaction).1
        = QList.erase cachedWallet (qLowerBound cachedWallet hash)
            (qUpperBound cachedWallet hash) ∨
    ∃ wtx, wallet.find hash = some wtx ∧
      (updateWallet decomposeTransaction wallet cachedWallet hash status showTransaction).1
        = insertLoop cachedWallet (qLowerBound cachedWallet hash : Nat)
            (decomposeTransaction wallet wtx) := by
  unfold updateWallet
  dsimp only
  split_ifs
  · exact Or.inl rfl
  · cases hfind : wallet.find hash with
    | none => exact Or.inl rfl
    | some wtx =>
      dsimp only
      split_ifs
      · exact Or.inr (Or.inr ⟨wtx, rfl, rfl⟩)
      · exact Or.inl rfl
  · exact Or.inl rfl
  · exact Or.inl rfl
  · exact Or.inr (Or.inl rfl)
  · exact Or.inl rfl

/-- Appending the decompositions of wallet entries with ascending keys, each
carrying its key as hash, to a sorted cache whose hashes do not exceed the keys
keeps the cache sorted. -/
theorem foldl_append_sorted {Tx : Type} (showTransaction : Tx → Bool)
    (g : Tx → List TransactionRecord) :
    ∀ (entries : List (Nat × Tx)) (acc : List TransactionRecord),
      entries.Pairwise (fun e f => e.1 ≤ f.1) →
      (∀ e ∈ entries, ∀ r ∈ g e.2, r.hash = e.1) →
      HashSorted acc →
      (∀ a ∈ acc, ∀ e ∈ entries, a.hash ≤ e.1) →
      HashSorted (entries.foldl
        (fun cachedWallet it =>
          if showTransaction it.2 then cachedWallet ++ g it.2 else cachedWallet) acc) := by
  intro entries
  induction entries with
  | nil =>
    intro acc _ _ hacc _
    simpa using hacc
  | cons e es ih =>
    intro acc hp hg hacc hbound
    rw [List.pairwise_cons] at hp
    rw [List.foldl_cons]
    apply ih _ hp.2 (fun e' he' => hg e' (List.mem_cons_of_mem _ he'))
    · by_cases hshow : showTransaction e.2 = true
      · rw [if_pos hshow]
        unfold HashSorted
        rw [List.pairwise_append]
        refine ⟨hacc, ?_, ?_⟩
        · rw [List.pairwise_iff_forall_sublist]
          intro a b hab
          have ha := hg e (List.mem_cons_self _ _) a (hab.subset (List.mem_cons_self _ _))
          have hb := hg e (List.mem_cons_self _ _) b
            (hab.subset (List.mem_cons_of_mem _ (List.mem_singleton_self _)))
          omega
        · intro a ha b hb
          have h1 := hbound a ha e (List.mem_cons_self _ _)
          have h2 := hg e (List.mem_cons_self _ _) b hb
          omega
      · rw [if_neg hshow]
        exact hacc
    · intro a ha e' he'
      by_cases hshow : showTransaction e.2 = true
      · rw [if_pos hshow] at ha
        rcases List.mem_append.1 ha with h | h
        · exact hbound a h e' (List.mem_cons_of_mem _ he')
        · have h1 := hg e (List.mem_cons_self _ _) a h
          have h2 := hp.1 e' he'
          omega
      · rw [if_neg hshow] at ha
        exact hbound a ha e' (List.mem_cons_of_mem _ he')

/-- Inserting records that all carry the hash at the lower bound of that hash
keeps a hash-sorted cache sorted. -/
theorem insert_at_lowerBound_sorted {xs : List TransactionRecord} (v : Nat)
    (hs : HashSorted xs) (toInsert : List TransactionRecord)
    (hall : ∀ r ∈ toInsert, r.hash = v) :
    HashSorted (xs.take (qLowerBound xs v) ++ toInsert ++ xs.drop (qLowerBound xs v)) := by
  have htd := qLowerBound_take_drop v hs
  have hlow : ∀ a ∈ xs.take (qLowerBound xs v), a.hash < v := by
    intro a ha
    rw [htd.1] at ha
    simpa using (List.mem_filter.1 ha).2
  have hhigh : ∀ b ∈ xs.drop (qLowerBound xs v), v ≤ b.hash := by
    intro b hb
    rw [htd.2] at hb
    have : ¬ b.hash < v := by simpa using (List.mem_filter.1 hb).2
    omega
  unfold HashSorted at hs ⊢
  rw [List.pairwise_append, List.pairwise_append]
  refine ⟨⟨hs.sublist (List.take_sublist _ _), ?_, ?_⟩, hs.sublist (List.drop_sublist _ _), ?_⟩
  · rw [List.pairwise_iff_forall_sublist]
    intro a b hab
    have ha := hall a (hab.subset (List.mem_cons_self _ _))
    have hb := hall b (hab.subset (List.mem_cons_of_mem _ (List.mem_singleton_self _)))
    omega
  · intro a ha b hb
    have h1 := hlow a ha
    have h2 := hall b hb
    omega
  · intro a ha b hb
    have h2 := hhigh b hb
    rcases List.mem_append.1 ha with h | h
    · have h1 := hlow a h
      omega
    · have h1 := hall a h
      omega

/-- Claim C12: the transaction cache is always sorted by transaction hash. Assuming
the wallet map iterates in ascending hash order and `decomposeTransaction`
returns records carrying the hash of the transaction it decomposes,
`refreshWallet` produces a cache in non-decreasing hash order, and for every
hash, status and `showTransaction`, `updateWallet` applied to a hash-sorted cache
yields a hash-sorted cache. -/
theorem cachedWallet_sorted {Tx : Type} (showTx : Tx → Bool)
    (decomposeTransaction : CWallet Tx → Tx → List TransactionRecord)
    (wallet : CWallet Tx)
    (hmap : wallet.mapWallet.Pairwise (fun e f => e.1 ≤ f.1))
    (hdec : ∀ e ∈ wallet.mapWallet, ∀ r ∈ decomposeTransaction wallet e.2, r.hash = e.1) :
    HashSorted (refreshWallet showTx decomposeTransaction wallet) ∧
    ∀ (cachedWallet : List TransactionRecord) (hash : Nat) (status : Int)
      (showTransaction : Bool), HashSorted cachedWallet →
      HashSorted
        (updateWallet decomposeTransaction wallet cachedWallet hash status showTransaction).1 := by
  constructor
  · unfold refreshWallet
    apply foldl_append_sorted showTx (decomposeTransaction wallet) wallet.mapWallet [] hmap hdec
    · exact List.Pairwise.nil
    · intro a ha
      cases ha
  · intro cachedWallet hash status showTransaction hs
    rcases updateWallet_fst_cases decomposeTransaction wallet cachedWallet hash status
      showTransaction with h | h | ⟨wtx, hfind, h⟩
    · rw [h]
      exact hs
    · rw [h]
      unfold QList.erase
      have htd := qLowerBound_take_drop hash hs
      have hud := qUpperBound_take_drop hash hs
      unfold HashSorted at hs ⊢
      rw [List.pairwise_append]
      refine ⟨hs.sublist (List.take_sublist _ _), hs.sublist (List.drop_sublist _ _), ?_⟩
      intro a ha b hb
      rw [htd.1] at ha
      rw [hud.2] at hb
      have h1 : a.hash < hash := by simpa using (List.mem_filter.1 ha).2
      have h2 : hash < b.hash := by simpa using (List.mem_filter.1 hb).2
      omega
    · rw [h, insertLoop_eq _ _ _ (qLowerBound_spec hash hs).1]
      exact insert_at_lowerBound_sorted hash hs _
        (fun r hr => hdec (hash, wtx) (find_mem hfind) r hr)

/-- Witness of C12 on the sample wallet, whose keys ascend and whose records carry
their transaction's hash: the refreshed cache is hash-sorted, and so is the
sample cache after the transaction of hash 7 becomes visible. -/
theorem cachedWallet_sorted_witness :
    HashSorted (refreshWallet sampleShow sampleDecompose sampleWallet) ∧
    HashSorted (updateWallet sampleDecompose sampleWallet sampleCache 7 CT_UPDATED true).1 :=
  have h := cachedWallet_sorted sampleShow sampleDecompose sampleWallet
    (by decide) (by decide)
  ⟨h.1, h.2 sampleCache 7 CT_UPDATED true (by decide)⟩

/-! ## Transaction cache: derived status -/

/-- An update notification for a transaction to show acts as a new-transaction
notification, whatever the cache holds. -/
theorem updateWallet_updated_show {Tx : Type}
    (decomposeTransaction : CWallet Tx → Tx → List TransactionRecord)
    (wallet : CWallet Tx) (cachedWallet : List TransactionRecord) (hash : Nat) :
    updateWallet decomposeTransaction wallet cachedWallet hash CT_UPDATED true
      = updateWallet decomposeTransaction wallet cachedWallet hash CT_NEW true := by
  unfold updateWallet
  dsimp only
  generalize (qLowerBound cachedWallet hash != qUpperBound cachedWallet hash) = inModel
  cases inModel <;> simp [derivedStatus, CT_NEW, CT_UPDATED, CT_DELETED]

/-- An update notification for a transaction to hide acts as a deletion
notification, whatever the cache holds. -/
theorem updateWallet_updated_hide {Tx : Type}
    (decomposeTransaction : CWallet Tx → Tx → List TransactionRecord)
    (wallet : CWallet Tx) (cachedWallet : List TransactionRecord) (hash : Nat) :
    updateWallet decomposeTransaction wallet cachedWallet hash CT_UPDATED false
      = updateWallet decomposeTransaction wallet cachedWallet hash CT_DELETED false := by
  unfold updateWallet
  dsimp only
  generalize (qLowerBound cachedWallet hash != qUpperBound cachedWallet hash) = inModel
  cases inModel <;> simp [derivedStatus, CT_NEW, CT_UPDATED, CT_DELETED]

/-- Claim C15: a `CT_UPDATED` notification is re-derived from the model. For every
cache and hash, `updateWallet` with `CT_UPDATED` and `showTransaction` true, when
the hash is not in the model, produces the same cache (and the same
notifications) as with `CT_NEW` and true; and with `CT_UPDATED` and
`showTransaction` false, when the hash is in the model, the same as with
`CT_DELETED` and false. Being in the model is read both as the flag `inModel`
computed from the two bounds and as some cached record carrying the hash. -/
theorem updateWallet_updated_rederived {Tx : Type}
    (decomposeTransaction : CWallet Tx → Tx → List TransactionRecord)
    (wallet : CWallet Tx) (cachedWallet : List TransactionRecord) (hash : Nat) :
    ((qLowerBound cachedWallet hash != qUpperBound cachedWallet hash) = false →
      updateWallet decomposeTransaction wallet cachedWallet hash CT_UPDATED true
        = updateWallet decomposeTransaction wallet cachedWallet hash CT_NEW true) ∧
    ((∀ r ∈ cachedWallet, r.hash ≠ hash) →
      updateWallet decomposeTransaction wallet cachedWallet hash CT_UPDATED true
        = updateWallet decomposeTransaction wallet cachedWallet hash CT_NEW true) ∧
    ((qLowerBound cachedWallet hash != qUpperBound cachedWallet hash) = true →
      updateWallet decomposeTransaction wallet cachedWallet hash CT_UPDATED false
        = updateWallet decomposeTransaction wallet cachedWallet hash CT_DELETED false) ∧
    ((∃ r ∈ cachedWallet, r.hash = hash) →
      updateWallet decomposeTransaction wallet cachedWallet hash CT_UPDATED false
        = updateWallet decomposeTransaction wallet cachedWallet hash CT_DELETED false) :=
  ⟨fun _ => updateWallet_updated_show decomposeTransaction wallet cachedWallet hash,
   fun _ => updateWallet_updated_show decomposeTransaction wallet cachedWallet hash,
   fun _ => updateWallet_updated_hide decomposeTransaction wallet cachedWallet hash,
   fun _ => updateWallet_updated_hide decomposeTransaction wallet cachedWallet hash⟩

/-- Witness of C15 on the sample wallet and cache: hash 7 is not in the model, so
an update to show it inserts its records as a new transaction would; hash 5 is
in the model, so an update to hide it removes its records as a deletion would. -/
theorem updateWallet_updated_rederived_witness :
    (updateWallet sampleDecompose sampleWallet sampleCache 7 CT_UPDATED true
      = updateWallet sampleDecompose sampleWallet sampleCache 7 CT_NEW true) ∧
    (updateWallet sampleDecompose sampleWallet sampleCache 5 CT_UPDATED false
      = updateWallet sampleDecompose sampleWallet sampleCache 5 CT_DELETED false) :=
  ⟨(updateWallet_updated_rederived sampleDecompose sampleWallet sampleCache 7).2.1 (by decide),
   (updateWallet_updated_rederived sampleDecompose sampleWallet sampleCache 5).2.2.2
     ⟨sampleRecord 5 0, by decide, rfl⟩⟩
